import Mathlib

/-!
# HTTP latency monitor (`http-latency-monitor/latency.c`)

A shallow embedding of the two probe handlers of `latency.c` and of the two
BPF maps they share:

* `start_times`, a `BPF_MAP_TYPE_HASH` with `max_entries = 10240`, keyed by the
  64-bit `pid_tgid`, holding the 64-bit start time of the call in flight;
* `events`, a `BPF_MAP_TYPE_PERF_EVENT_ARRAY` that carries `latency_event`
  records to the user-space reader.

Unsigned 64-bit quantities are natural numbers; the one arithmetic operation
of the program, `end_time - *start_time`, is taken modulo `2 ^ 64`.
The values read from `bpf_get_current_pid_tgid()` and `bpf_ktime_get_ns()` are
arguments of the handlers, as is the outcome of the perf-buffer write, which
depends on the reader and not on the program.  A handler invocation is one
atomic step on the pair of maps.
-/

namespace LatencyMonitor

/-! ## Data model -/

/-- Modulus of `__u64` arithmetic. -/
def U64_MOD : Nat := 2 ^ 64

/-- Record of `struct latency_event`: two `__u64` fields. -/
structure latency_event where
  pid_tgid : Nat
  latency_ns : Nat
  deriving DecidableEq

/-- Capacity of `start_times`: `__uint(max_entries, 10240)`. -/
def MAX_ENTRIES : Nat := 10240

/-- Contents of a hash map with `__u64` keys and `__u64` values: the list of
its `(key, value)` elements. -/
abbrev Table := List (Nat × Nat)

/-- Keys stored in a table, one per element. -/
def Table.keys (m : Table) : List Nat := m.map Prod.fst

/-- A hash map holds at most one element per key. -/
def Table.WF (m : Table) : Prop := m.keys.Nodup

instance (m : Table) : Decidable m.WF := by
  unfold Table.WF; infer_instance

/-- Kernel error number: no such element. -/
def ENOENT : Int := 2

/-- Kernel error number: the map is at capacity. -/
def E2BIG : Int := 7

/-- Kernel error number: no room left in the buffer. -/
def ENOSPC : Int := 28

/-! ## Map helpers -/

/-- Helper `bpf_map_lookup_elem`: the value stored under `key`, or `none`
for the `NULL` pointer. -/
def bpf_map_lookup_elem : Table → Nat → Option Nat
  | [], _ => none
  | (k, v) :: rest, key => if k = key then some v else bpf_map_lookup_elem rest key

/-- Overwrite in place the value of the element stored under `key`. -/
def Table.replace : Table → Nat → Nat → Table
  | [], _, _ => []
  | (k, v) :: rest, key, value =>
    if k = key then (k, value) :: rest else (k, v) :: Table.replace rest key value

/-- Unlink the element stored under `key`. -/
def Table.erase : Table → Nat → Table
  | [], _ => []
  | (k, v) :: rest, key => if k = key then rest else (k, v) :: Table.erase rest key

/-- Helper `bpf_map_update_elem` with flag `BPF_ANY` on the hash map
`start_times`: an existing element is overwritten; a new element is inserted
while the map holds fewer than `max_entries` elements; otherwise the map is
left alone and `-E2BIG` is returned. -/
def bpf_map_update_elem (m : Table) (key value : Nat) : Table × Int :=
  if (bpf_map_lookup_elem m key).isSome then (m.replace key value, 0)
  else if m.length < MAX_ENTRIES then ((key, value) :: m, 0)
  else (m, -E2BIG)

/-- Helper `bpf_map_delete_elem`: removes the element stored under `key`, or
returns `-ENOENT` when there is none. -/
def bpf_map_delete_elem (m : Table) (key : Nat) : Table × Int :=
  if (bpf_map_lookup_elem m key).isSome then (m.erase key, 0) else (m, -ENOENT)

/-- History of the perf event array `events`: every record handed to
`bpf_perf_event_output`, and those of them the buffer took, which are the
records the reader receives. -/
structure Channel where
  submitted : List latency_event
  delivered : List latency_event
  deriving DecidableEq

/-- Helper `bpf_perf_event_output`: the record is appended to the buffer when
the buffer accepts it (`accept`); otherwise it is lost and a negative error
number is returned. -/
def bpf_perf_event_output (ch : Channel) (accept : Bool) (event : latency_event) :
    Channel × Int :=
  if accept then
    ({ submitted := ch.submitted ++ [event], delivered := ch.delivered ++ [event] }, 0)
  else
    ({ submitted := ch.submitted ++ [event], delivered := ch.delivered }, -ENOSPC)

/-- The two maps of the program. -/
structure State where
  start_times : Table
  events : Channel
  deriving DecidableEq

/-- Both maps empty, as after loading the program. -/
def State.init : State :=
  { start_times := [], events := { submitted := [], delivered := [] } }

/-! ## Handlers -/

/-- Entry probe `uprobe_handle_request`; `pid_tgid` is the value of
`bpf_get_current_pid_tgid()` and `now` that of `bpf_ktime_get_ns()`. The result
of the map update is not inspected. -/
def uprobe_handle_request (pid_tgid now : Nat) (s : State) : State × Int :=
  let start_time := now
  let upd := bpf_map_update_elem s.start_times pid_tgid start_time
  ({ s with start_times := upd.1 }, 0)

/-- Return probe `uretprobe_handle_request`; `now` is the value
`bpf_ktime_get_ns()` yields once the lookup has succeeded, `accept` tells
whether the perf buffer takes the record. The results of the output and of the
delete are not inspected. -/
def uretprobe_handle_request (pid_tgid now : Nat) (accept : Bool) (s : State) :
    State × Int :=
  match bpf_map_lookup_elem s.start_times pid_tgid with
  | none => (s, 0)
  | some start_time =>
    let end_time := now
    let latency := (end_time + U64_MOD - start_time) % U64_MOD
    let event : latency_event := { pid_tgid := pid_tgid, latency_ns := latency }
    let out := bpf_perf_event_output s.events accept event
    let del := bpf_map_delete_elem s.start_times pid_tgid
    ({ start_times := del.1, events := out.1 }, 0)

/-! ## Sequences of invocations -/

/-- One probe firing. -/
inductive Op where
  | entry (ctx now : Nat)
  | exit (ctx now : Nat) (accept : Bool)
  deriving DecidableEq

/-- Context on which a probe fires. -/
def Op.ctx : Op → Nat
  | .entry c _ => c
  | .exit c _ _ => c

/-- State after one probe firing. -/
def step (s : State) : Op → State
  | .entry c t => (uprobe_handle_request c t s).1
  | .exit c t a => (uretprobe_handle_request c t a s).1

/-- State after a sequence of probe firings. -/
def run (s : State) (ops : List Op) : State := ops.foldl step s

/-- A table of `n` elements with keys `0 .. n-1`, each with start time `0`. -/
@[irreducible]
def fullTable (n : Nat) : Table := (List.range n).map (fun k => (k, 0))

/-- Records carrying the id `b`, in order. -/
def carrying (b : Nat) (l : List latency_event) : List latency_event :=
  l.filter (fun e => decide (e.pid_tgid = b))

/-- Invariant of `start_times`: within capacity, one element per key. -/
def Table.Inv (m : Table) : Prop := m.length ≤ MAX_ENTRIES ∧ m.WF

/-- Whether a firing is the entry probe on context `c`. -/
def Op.isEntryFor (c : Nat) : Op → Bool
  | .entry k _ => decide (k = c)
  | .exit _ _ _ => false

/-- Number of entry-probe firings on context `c` in a sequence. -/
def entriesFor (c : Nat) (ops : List Op) : Nat := (ops.filter (Op.isEntryFor c)).length

/-- Reference value `(a - b) mod 2^64`: the difference taken over the
integers and reduced modulo `2 ^ 64`. The handler's own subtraction is compared
with it. -/
def u64_sub (a b : Nat) : Nat := (((a : Int) - (b : Int)) % (2 : Int) ^ 64).toNat

/-! ## Facts about the map helpers -/

theorem lookup_eq_none_iff (m : Table) (key : Nat) :
    bpf_map_lookup_elem m key = none ↔ key ∉ m.keys := by
  induction m with
  | nil => simp [bpf_map_lookup_elem, Table.keys]
  | cons e rest ih =>
    obtain ⟨k, v⟩ := e
    by_cases hk : k = key
    · simp [bpf_map_lookup_elem, Table.keys, hk]
    · have hk2 : ¬ key = k := fun h => hk h.symm
      simpa [bpf_map_lookup_elem, Table.keys, hk, hk2] using ih

theorem lookup_replace_self (m : Table) (key value : Nat)
    (h : (bpf_map_lookup_elem m key).isSome) :
    bpf_map_lookup_elem (m.replace key value) key = some value := by
  induction m with
  | nil => simp [bpf_map_lookup_elem] at h
  | cons e rest ih =>
    obtain ⟨k, v⟩ := e
    by_cases hk : k = key
    · simp [bpf_map_lookup_elem, Table.replace, hk]
    · simp only [bpf_map_lookup_elem, hk, if_false] at h
      simpa [bpf_map_lookup_elem, Table.replace, hk] using ih h

theorem lookup_replace_ne (m : Table) (key value b : Nat) (hne : key ≠ b) :
    bpf_map_lookup_elem (m.replace key value) b = bpf_map_lookup_elem m b := by
  induction m with
  | nil => rfl
  | cons e rest ih =>
    obtain ⟨k, v⟩ := e
    by_cases hk : k = key
    · have hb : ¬ k = b := fun h => hne (hk ▸ h)
      simp [bpf_map_lookup_elem, Table.replace, hk, hb, hne]
    · by_cases hb : k = b
      · subst hb
        simp [bpf_map_lookup_elem, Table.replace, hk]
      · simpa [bpf_map_lookup_elem, Table.replace, hk, hb] using ih

theorem lookup_erase_ne (m : Table) (key b : Nat) (hne : key ≠ b) :
    bpf_map_lookup_elem (m.erase key) b = bpf_map_lookup_elem m b := by
  induction m with
  | nil => rfl
  | cons e rest ih =>
    obtain ⟨k, v⟩ := e
    by_cases hk : k = key
    · have hb : ¬ k = b := fun h => hne (hk ▸ h)
      simp [bpf_map_lookup_elem, Table.erase, hk, hne]
    · by_cases hb : k = b
      · subst hb
        simp [bpf_map_lookup_elem, Table.erase, hk]
      · simpa [bpf_map_lookup_elem, Table.erase, hk, hb] using ih

theorem lookup_erase_self (m : Table) (key : Nat) (hwf : m.WF) :
    bpf_map_lookup_elem (m.erase key) key = none := by
  induction m with
  | nil => rfl
  | cons e rest ih =>
    obtain ⟨k, v⟩ := e
    have hnd : k ∉ Table.keys rest ∧ (Table.keys rest).Nodup := by
      simpa [Table.WF, Table.keys] using hwf
    by_cases hk : k = key
    · subst hk
      simpa [Table.erase] using (lookup_eq_none_iff rest k).2 hnd.1
    · simpa [bpf_map_lookup_elem, Table.erase, hk] using ih hnd.2

theorem keys_replace (m : Table) (key value : Nat) :
    (m.replace key value).keys = m.keys := by
  induction m with
  | nil => rfl
  | cons e rest ih =>
    obtain ⟨k, v⟩ := e
    by_cases hk : k = key
    · simp [Table.replace, Table.keys, hk]
    · simpa [Table.replace, Table.keys, hk] using ih

theorem length_replace (m : Table) (key value : Nat) :
    (m.replace key value).length = m.length := by
  have h := congrArg List.length (keys_replace m key value)
  simpa [Table.keys] using h

theorem keys_erase_sublist (m : Table) (key : Nat) :
    (m.erase key).keys.Sublist m.keys := by
  induction m with
  | nil => simp [Table.erase, Table.keys]
  | cons e rest ih =>
    obtain ⟨k, v⟩ := e
    by_cases hk : k = key
    · simp [Table.erase, Table.keys, hk]
    · simpa [Table.erase, Table.keys, hk] using ih

theorem lookup_update_self (m : Table) (key value : Nat)
    (h : m.length < MAX_ENTRIES ∨ bpf_map_lookup_elem m key ≠ none) :
    bpf_map_lookup_elem (bpf_map_update_elem m key value).1 key = some value := by
  unfold bpf_map_update_elem
  by_cases hs : (bpf_map_lookup_elem m key).isSome
  · simp [hs, lookup_replace_self m key value hs]
  · have hnone : bpf_map_lookup_elem m key = none := by simpa using hs
    have hlen : m.length < MAX_ENTRIES := by
      rcases h with h | h
      · exact h
      · exact absurd hnone h
    simp [hnone, hlen, bpf_map_lookup_elem]

theorem lookup_update_ne (m : Table) (key value b : Nat) (hne : key ≠ b) :
    bpf_map_lookup_elem (bpf_map_update_elem m key value).1 b = bpf_map_lookup_elem m b := by
  unfold bpf_map_update_elem
  by_cases hs : (bpf_map_lookup_elem m key).isSome
  · simp [hs, lookup_replace_ne m key value b hne]
  · by_cases hlen : m.length < MAX_ENTRIES
    · simp [hs, hlen, bpf_map_lookup_elem, hne]
    · simp [hs, hlen]

theorem lookup_delete_ne (m : Table) (key b : Nat) (hne : key ≠ b) :
    bpf_map_lookup_elem (bpf_map_delete_elem m key).1 b = bpf_map_lookup_elem m b := by
  unfold bpf_map_delete_elem
  by_cases hs : (bpf_map_lookup_elem m key).isSome
  · simp [hs, lookup_erase_ne m key b hne]
  · simp [hs]

theorem lookup_delete_self (m : Table) (key : Nat) (hwf : m.WF) :
    bpf_map_lookup_elem (bpf_map_delete_elem m key).1 key = none := by
  unfold bpf_map_delete_elem
  by_cases hs : (bpf_map_lookup_elem m key).isSome
  · simp [hs, lookup_erase_self m key hwf]
  · have hnone : bpf_map_lookup_elem m key = none := by simpa using hs
    simp [hnone]

/-- Result of the return probe when an element is stored for the context. -/
theorem uretprobe_of_lookup_some (s : State) (ctx now start : Nat) (accept : Bool)
    (h : bpf_map_lookup_elem s.start_times ctx = some start) :
    uretprobe_handle_request ctx now accept s =
      ({ start_times := (bpf_map_delete_elem s.start_times ctx).1,
         events := (bpf_perf_event_output s.events accept
            { pid_tgid := ctx, latency_ns := (now + U64_MOD - start) % U64_MOD }).1 }, 0) := by
  simp [uretprobe_handle_request, h]

/-- Result of the return probe when no element is stored for the context. -/
theorem uretprobe_of_lookup_none (s : State) (ctx now : Nat) (accept : Bool)
    (h : bpf_map_lookup_elem s.start_times ctx = none) :
    uretprobe_handle_request ctx now accept s = (s, 0) := by
  simp [uretprobe_handle_request, h]

theorem length_fullTable (n : Nat) : (fullTable n).length = n := by
  simp [fullTable]

theorem keys_fullTable (n : Nat) : (fullTable n).keys = List.range n := by
  simp [fullTable, Table.keys, Function.comp_def]

theorem lookup_fullTable_none (n key : Nat) (h : n ≤ key) :
    bpf_map_lookup_elem (fullTable n) key = none := by
  rw [lookup_eq_none_iff, keys_fullTable]
  simp [h]

/-- Entry probe on a map at capacity holding nothing for the context: the
update is refused and the state is unchanged. -/
theorem uprobe_of_full (s : State) (ctx now : Nat)
    (hfull : s.start_times.length = MAX_ENTRIES)
    (habs : bpf_map_lookup_elem s.start_times ctx = none) :
    uprobe_handle_request ctx now s = (s, 0) := by
  simp [uprobe_handle_request, bpf_map_update_elem, habs, hfull]

/-- Entry probe when the write can proceed: the context is mapped to the
clock reading. -/
theorem lookup_uprobe_self (s : State) (ctx now : Nat)
    (hcap : s.start_times.length < MAX_ENTRIES ∨ bpf_map_lookup_elem s.start_times ctx ≠ none) :
    bpf_map_lookup_elem (uprobe_handle_request ctx now s).1.start_times ctx = some now :=
  lookup_update_self s.start_times ctx now hcap

theorem events_uprobe (s : State) (ctx now : Nat) :
    (uprobe_handle_request ctx now s).1.events = s.events := rfl

/-! ## Frame and invariant lemmas -/

theorem lookup_uprobe_ne (s : State) (a b now : Nat) (hab : a ≠ b) :
    bpf_map_lookup_elem (uprobe_handle_request a now s).1.start_times b
      = bpf_map_lookup_elem s.start_times b :=
  lookup_update_ne s.start_times a now b hab

theorem lookup_uretprobe_ne (s : State) (a b now : Nat) (accept : Bool) (hab : a ≠ b) :
    bpf_map_lookup_elem (uretprobe_handle_request a now accept s).1.start_times b
      = bpf_map_lookup_elem s.start_times b := by
  cases h : bpf_map_lookup_elem s.start_times a with
  | none => rw [uretprobe_of_lookup_none s a now accept h]
  | some start =>
    rw [uretprobe_of_lookup_some s a now start accept h]
    exact lookup_delete_ne s.start_times a b hab

theorem carrying_uretprobe_ne (s : State) (a b now : Nat) (accept : Bool) (hab : a ≠ b) :
    carrying b (uretprobe_handle_request a now accept s).1.events.submitted
        = carrying b s.events.submitted
    ∧ carrying b (uretprobe_handle_request a now accept s).1.events.delivered
        = carrying b s.events.delivered := by
  cases h : bpf_map_lookup_elem s.start_times a with
  | none => rw [uretprobe_of_lookup_none s a now accept h]; exact ⟨rfl, rfl⟩
  | some start =>
    rw [uretprobe_of_lookup_some s a now start accept h]
    cases accept <;> simp [bpf_perf_event_output, carrying, List.filter_append, hab]

theorem step_frame (s : State) (op : Op) (b : Nat) (h : op.ctx ≠ b) :
    bpf_map_lookup_elem (step s op).start_times b = bpf_map_lookup_elem s.start_times b
    ∧ carrying b (step s op).events.submitted = carrying b s.events.submitted
    ∧ carrying b (step s op).events.delivered = carrying b s.events.delivered := by
  cases op with
  | entry c t => exact ⟨lookup_uprobe_ne s c b t h, rfl, rfl⟩
  | exit c t a =>
    exact ⟨lookup_uretprobe_ne s c b t a h, carrying_uretprobe_ne s c b t a h⟩

theorem run_frame (ops : List Op) (b : Nat) (h : b ∉ ops.map Op.ctx) (s : State) :
    bpf_map_lookup_elem (run s ops).start_times b = bpf_map_lookup_elem s.start_times b
    ∧ carrying b (run s ops).events.submitted = carrying b s.events.submitted
    ∧ carrying b (run s ops).events.delivered = carrying b s.events.delivered := by
  induction ops generalizing s with
  | nil => exact ⟨rfl, rfl, rfl⟩
  | cons op rest ih =>
    have hop : op.ctx ≠ b := by
      intro hc; apply h; simp [hc]
    have hrest : b ∉ rest.map Op.ctx := by
      intro hc; apply h; simp only [List.map_cons, List.mem_cons]; exact Or.inr hc
    have h1 := step_frame s op b hop
    have h2 := ih hrest (step s op)
    have hrun : run s (op :: rest) = run (step s op) rest := rfl
    rw [hrun]
    exact ⟨h2.1.trans h1.1, h2.2.1.trans h1.2.1, h2.2.2.trans h1.2.2⟩

theorem inv_update (m : Table) (key value : Nat) (h : m.Inv) :
    (bpf_map_update_elem m key value).1.Inv := by
  unfold bpf_map_update_elem
  by_cases hs : (bpf_map_lookup_elem m key).isSome
  · simp only [hs, if_true]
    exact ⟨by rw [length_replace]; exact h.1, by
      unfold Table.WF; rw [keys_replace]; exact h.2⟩
  · have hnone : bpf_map_lookup_elem m key = none := by simpa using hs
    by_cases hlen : m.length < MAX_ENTRIES
    · simp only [hnone, hlen, if_true, Option.isSome_none, Bool.false_eq_true, if_false]
      refine ⟨by simpa using hlen, ?_⟩
      have hnot : key ∉ m.keys := (lookup_eq_none_iff m key).1 hnone
      have hwf : m.keys.Nodup := h.2
      simpa [Table.WF, Table.keys] using And.intro hnot hwf
    · simpa [hnone, hlen] using h

theorem inv_delete (m : Table) (key : Nat) (h : m.Inv) :
    (bpf_map_delete_elem m key).1.Inv := by
  unfold bpf_map_delete_elem
  by_cases hs : (bpf_map_lookup_elem m key).isSome
  · simp only [hs, if_true]
    have hsub := keys_erase_sublist m key
    refine ⟨?_, List.Nodup.sublist hsub h.2⟩
    have hl := hsub.length_le
    have h1 := h.1
    simp only [Table.keys, List.length_map] at hl
    omega
  · simpa [hs] using h

theorem inv_step (s : State) (op : Op) (h : s.start_times.Inv) : (step s op).start_times.Inv := by
  cases op with
  | entry c t => exact inv_update s.start_times c t h
  | exit c t a =>
    cases hl : bpf_map_lookup_elem s.start_times c with
    | none =>
      show (uretprobe_handle_request c t a s).1.start_times.Inv
      rw [uretprobe_of_lookup_none s c t a hl]; exact h
    | some start =>
      show (uretprobe_handle_request c t a s).1.start_times.Inv
      rw [uretprobe_of_lookup_some s c t start a hl]
      exact inv_delete s.start_times c h

theorem inv_run (ops : List Op) (s : State) (h : s.start_times.Inv) :
    (run s ops).start_times.Inv := by
  induction ops generalizing s with
  | nil => exact h
  | cons op rest ih => exact ih (step s op) (inv_step s op h)

/-! ## Entry followed by exit -/

/-- C1: from every state in which the entry write can proceed (fewer than 10240
elements, or an element for `ctx` already stored), for clock readings
`t0 ≤ t1` (64-bit), `uprobe_handle_request` for `ctx` at `t0` followed by
`uretprobe_handle_request` for `ctx` at `t1` with the channel accepting emits
exactly one event, the record with `pid_tgid = ctx` and
`latency_ns = t1 - t0`: it is the only record added to what was handed to the
channel and to what the reader receives. -/
theorem entry_then_exit_emits_latency (s : State) (ctx t0 t1 : Nat)
    (hcap : s.start_times.length < 10240 ∨ bpf_map_lookup_elem s.start_times ctx ≠ none)
    (hle : t0 ≤ t1) (h64 : t1 < 2 ^ 64) :
    (uretprobe_handle_request ctx t1 true (uprobe_handle_request ctx t0 s).1).1.events
      = { submitted := s.events.submitted ++ [{ pid_tgid := ctx, latency_ns := t1 - t0 }],
          delivered := s.events.delivered ++ [{ pid_tgid := ctx, latency_ns := t1 - t0 }] } := by
  have hlook : bpf_map_lookup_elem (uprobe_handle_request ctx t0 s).1.start_times ctx
      = some t0 := lookup_update_self s.start_times ctx t0 hcap
  rw [uretprobe_of_lookup_some _ ctx t1 t0 true hlook]
  have harith : (t1 + U64_MOD - t0) % U64_MOD = t1 - t0 := by
    unfold U64_MOD; omega
  simp [bpf_perf_event_output, harith, uprobe_handle_request]

/-- C1 at `ctx = 5`, `t0 = 100`, `t1 = 250` from the empty maps: the event
`{5, 150}`. -/
theorem entry_then_exit_emits_latency_witness :
    ((State.init.start_times.length < 10240
        ∨ bpf_map_lookup_elem State.init.start_times 5 ≠ none)
      ∧ 100 ≤ 250 ∧ 250 < 2 ^ 64)
    ∧ (uretprobe_handle_request 5 250 true (uprobe_handle_request 5 100 State.init).1).1.events
      = { submitted := [{ pid_tgid := 5, latency_ns := 150 }],
          delivered := [{ pid_tgid := 5, latency_ns := 150 }] } :=
  ⟨⟨by decide, by decide, by decide⟩,
   entry_then_exit_emits_latency State.init 5 100 250 (by decide) (by decide) (by decide)⟩

/-! ## Exit without entry -/

/-- C2: in every state whose table holds no element for `ctx`, for every clock
reading and channel outcome, `uretprobe_handle_request` for `ctx` returns `0`
and leaves both maps exactly as they were: no event is emitted and the table
is unchanged. -/
theorem exit_without_entry_is_noop (s : State) (ctx now : Nat) (accept : Bool)
    (h : bpf_map_lookup_elem s.start_times ctx = none) :
    uretprobe_handle_request ctx now accept s = (s, 0) :=
  uretprobe_of_lookup_none s ctx now accept h

/-- C2 at a table holding only context `5`, exit for context `7`. -/
theorem exit_without_entry_is_noop_witness :
    bpf_map_lookup_elem [(5, 100)] 7 = none
    ∧ uretprobe_handle_request 7 300 true
        { start_times := [(5, 100)], events := { submitted := [], delivered := [] } }
      = ({ start_times := [(5, 100)], events := { submitted := [], delivered := [] } }, 0) :=
  ⟨by decide, exit_without_entry_is_noop _ 7 300 true (by decide)⟩

/-! ## Start time later than the exit reading -/

/-- C3, as stated, fails: with start time `250` stored for context `5` and
the exit clock reading `100`, the return probe does not discard the sample; it
emits the record `{5, 2^64 - 150}`, which the reader receives. -/
theorem exit_before_start_not_discarded :
    bpf_map_lookup_elem [(5, 250)] 5 = some 250 ∧ 100 < 250
    ∧ (uretprobe_handle_request 5 100 true
        { start_times := [(5, 250)], events := { submitted := [], delivered := [] } }).1.events
      = { submitted := [{ pid_tgid := 5, latency_ns := 18446744073709551466 }],
          delivered := [{ pid_tgid := 5, latency_ns := 18446744073709551466 }] } := by
  decide

/-- C3 amended: there is no guard on the order of the two readings. In every
state whose stored start time `start` for `ctx` (64-bit) is greater than the
exit clock reading `now`, `uretprobe_handle_request` for `ctx` hands exactly
one record to the channel, with `latency_ns = 2^64 - (start - now)`, the
wrapped difference; the reader receives it exactly when the channel accepts. -/
theorem exit_before_start_emits_wrapped (s : State) (ctx now start : Nat) (accept : Bool)
    (hlook : bpf_map_lookup_elem s.start_times ctx = some start)
    (hgt : now < start) (h64 : start < 2 ^ 64) :
    (uretprobe_handle_request ctx now accept s).1.events.submitted
      = s.events.submitted ++ [{ pid_tgid := ctx, latency_ns := 2 ^ 64 - (start - now) }]
    ∧ (uretprobe_handle_request ctx now accept s).1.events.delivered
      = (if accept then
          s.events.delivered ++ [{ pid_tgid := ctx, latency_ns := 2 ^ 64 - (start - now) }]
         else s.events.delivered) := by
  rw [uretprobe_of_lookup_some s ctx now start accept hlook]
  have harith : (now + U64_MOD - start) % U64_MOD = 2 ^ 64 - (start - now) := by
    unfold U64_MOD; omega
  cases accept <;> simp [bpf_perf_event_output, harith]

/-- C3 amended, at start time `250`, exit reading `100`, channel accepting. -/
theorem exit_before_start_emits_wrapped_witness :
    (bpf_map_lookup_elem [(5, 250)] 5 = some 250 ∧ 100 < 250 ∧ 250 < 2 ^ 64)
    ∧ (uretprobe_handle_request 5 100 true
        { start_times := [(5, 250)], events := { submitted := [], delivered := [] } }).1.events.submitted
      = [{ pid_tgid := 5, latency_ns := 2 ^ 64 - (250 - 100) }]
    ∧ (uretprobe_handle_request 5 100 true
        { start_times := [(5, 250)], events := { submitted := [], delivered := [] } }).1.events.delivered
      = [{ pid_tgid := 5, latency_ns := 2 ^ 64 - (250 - 100) }] :=
  ⟨⟨by decide, by decide, by decide⟩,
   exit_before_start_emits_wrapped
     { start_times := [(5, 250)], events := { submitted := [], delivered := [] } }
     5 100 250 true (by decide) (by decide) (by decide)⟩

/-! ## Two entries before one exit -/

/-- C4, as stated, fails on a table at capacity: with 10240 elements stored,
none for context `10240`, both entry writes are refused, the table never maps
the context to the second reading, and the exit emits nothing. -/
theorem double_entry_on_full_table_emits_nothing :
    (fullTable 10240).length = 10240
    ∧ bpf_map_lookup_elem
        (uprobe_handle_request 10240 2 (uprobe_handle_request 10240 1
          { start_times := fullTable 10240,
            events := { submitted := [], delivered := [] } }).1).1.start_times 10240 = none
    ∧ (uretprobe_handle_request 10240 3 true
        (uprobe_handle_request 10240 2 (uprobe_handle_request 10240 1
          { start_times := fullTable 10240,
            events := { submitted := [], delivered := [] } }).1).1).1.events
      = { submitted := [], delivered := [] } := by
  have hlen : (fullTable 10240).length = MAX_ENTRIES := length_fullTable 10240
  have habs : bpf_map_lookup_elem (fullTable 10240) 10240 = none :=
    lookup_fullTable_none 10240 10240 (Nat.le_refl _)
  have e1 := uprobe_of_full
    { start_times := fullTable 10240, events := { submitted := [], delivered := [] } }
    10240 1 hlen habs
  have e2 := uprobe_of_full
    { start_times := fullTable 10240, events := { submitted := [], delivered := [] } }
    10240 2 hlen habs
  have e3 := uretprobe_of_lookup_none
    { start_times := fullTable 10240, events := { submitted := [], delivered := [] } }
    10240 3 true habs
  refine ⟨length_fullTable 10240, ?_, ?_⟩
  · rw [e1, e2]
    exact habs
  · rw [e1, e2, e3]

/-- C4 amended (last entry wins): from every state in which the entry write
can proceed (fewer than 10240 elements, or an element for `ctx` already
stored), for 64-bit clock readings `t2`, `t3` and any `t1`: after
`uprobe_handle_request` for `ctx` at `t1` and again at `t2` the table maps
`ctx` to `t2`; the following `uretprobe_handle_request` for `ctx` at `t3` hands
exactly one record to the channel (received by the reader when the channel
accepts), whose `latency_ns` is the 64-bit difference of `t3` and `t2`, equal to
`t3 - t2` when `t2 ≤ t3`, and different from the 64-bit difference of `t3` and
`t1` whenever the 64-bit `t1` differs from `t2`. -/
theorem last_entry_wins (s : State) (ctx t1 t2 t3 : Nat) (accept : Bool)
    (hcap : s.start_times.length < 10240 ∨ bpf_map_lookup_elem s.start_times ctx ≠ none)
    (h2 : t2 < 2 ^ 64) (h3 : t3 < 2 ^ 64) :
    bpf_map_lookup_elem
        (uprobe_handle_request ctx t2 (uprobe_handle_request ctx t1 s).1).1.start_times ctx
      = some t2
    ∧ (uretprobe_handle_request ctx t3 accept
        (uprobe_handle_request ctx t2 (uprobe_handle_request ctx t1 s).1).1).1.events.submitted
      = s.events.submitted ++ [{ pid_tgid := ctx, latency_ns := (t3 + 2 ^ 64 - t2) % 2 ^ 64 }]
    ∧ (uretprobe_handle_request ctx t3 accept
        (uprobe_handle_request ctx t2 (uprobe_handle_request ctx t1 s).1).1).1.events.delivered
      = (if accept then
          s.events.delivered ++ [{ pid_tgid := ctx, latency_ns := (t3 + 2 ^ 64 - t2) % 2 ^ 64 }]
         else s.events.delivered)
    ∧ (t2 ≤ t3 → (t3 + 2 ^ 64 - t2) % 2 ^ 64 = t3 - t2)
    ∧ (t1 < 2 ^ 64 → t1 ≠ t2 → (t3 + 2 ^ 64 - t2) % 2 ^ 64 ≠ (t3 + 2 ^ 64 - t1) % 2 ^ 64) := by
  have hl1 : bpf_map_lookup_elem (uprobe_handle_request ctx t1 s).1.start_times ctx = some t1 :=
    lookup_uprobe_self s ctx t1 hcap
  have hl2 : bpf_map_lookup_elem
      (uprobe_handle_request ctx t2 (uprobe_handle_request ctx t1 s).1).1.start_times ctx
      = some t2 :=
    lookup_uprobe_self _ ctx t2 (Or.inr (by simp [hl1]))
  refine ⟨hl2, ?_, ?_, ?_, ?_⟩
  · rw [uretprobe_of_lookup_some _ ctx t3 t2 accept hl2]
    cases accept <;> simp [bpf_perf_event_output, events_uprobe, U64_MOD]
  · rw [uretprobe_of_lookup_some _ ctx t3 t2 accept hl2]
    cases accept <;> simp [bpf_perf_event_output, events_uprobe, U64_MOD]
  · intro hle; omega
  · intro h1 hne; omega

/-- C4 amended, from the empty maps with entries at `100` and `200` and the
exit at `250`: latency `50`, not `150`. -/
theorem last_entry_wins_witness :
    ((State.init.start_times.length < 10240
        ∨ bpf_map_lookup_elem State.init.start_times 5 ≠ none)
      ∧ 200 < 2 ^ 64 ∧ 250 < 2 ^ 64)
    ∧ (bpf_map_lookup_elem
        (uprobe_handle_request 5 200 (uprobe_handle_request 5 100 State.init).1).1.start_times 5
      = some 200
    ∧ (uretprobe_handle_request 5 250 true
        (uprobe_handle_request 5 200 (uprobe_handle_request 5 100 State.init).1).1).1.events.submitted
      = [{ pid_tgid := 5, latency_ns := 50 }]
    ∧ (uretprobe_handle_request 5 250 true
        (uprobe_handle_request 5 200 (uprobe_handle_request 5 100 State.init).1).1).1.events.delivered
      = [{ pid_tgid := 5, latency_ns := 50 }]
    ∧ (200 ≤ 250 → (250 + 2 ^ 64 - 200) % 2 ^ 64 = 250 - 200)
    ∧ (100 < 2 ^ 64 → 100 ≠ 200 → (250 + 2 ^ 64 - 200) % 2 ^ 64 ≠ (250 + 2 ^ 64 - 100) % 2 ^ 64)) :=
  ⟨⟨by decide, by decide, by decide⟩,
   last_entry_wins State.init 5 100 200 250 true (by decide) (by decide) (by decide)⟩

/-! ## Cleanup by the exit handler -/

/-- C5: in every state whose table (one element per key) holds an element for
`ctx`, after `uretprobe_handle_request` for `ctx` the table holds no element for
`ctx`, and a second `uretprobe_handle_request` for `ctx` right after it, at any
clock reading and channel outcome, returns `0` and changes neither map: it
emits no event and leaves the table as it was. -/
theorem exit_cleanup_idempotent (s : State) (ctx now now2 start : Nat) (accept accept2 : Bool)
    (hwf : s.start_times.WF)
    (hlook : bpf_map_lookup_elem s.start_times ctx = some start) :
    bpf_map_lookup_elem (uretprobe_handle_request ctx now accept s).1.start_times ctx = none
    ∧ uretprobe_handle_request ctx now2 accept2 (uretprobe_handle_request ctx now accept s).1
      = ((uretprobe_handle_request ctx now accept s).1, 0) := by
  have hnone : bpf_map_lookup_elem (uretprobe_handle_request ctx now accept s).1.start_times ctx
      = none := by
    rw [uretprobe_of_lookup_some s ctx now start accept hlook]
    exact lookup_delete_self s.start_times ctx hwf
  exact ⟨hnone, uretprobe_of_lookup_none _ ctx now2 accept2 hnone⟩

/-- C5 at a table holding contexts `5` and `7`: the exit for `5` emits
`{5, 150}` and removes its element, the second exit does nothing. -/
theorem exit_cleanup_idempotent_witness :
    (Table.WF [(5, 100), (7, 200)] ∧ bpf_map_lookup_elem [(5, 100), (7, 200)] 5 = some 100)
    ∧ (bpf_map_lookup_elem (uretprobe_handle_request 5 250 true
          { start_times := [(5, 100), (7, 200)],
            events := { submitted := [], delivered := [] } }).1.start_times 5 = none
      ∧ uretprobe_handle_request 5 260 true (uretprobe_handle_request 5 250 true
          { start_times := [(5, 100), (7, 200)],
            events := { submitted := [], delivered := [] } }).1
        = ({ start_times := [(7, 200)],
             events := { submitted := [{ pid_tgid := 5, latency_ns := 150 }],
                         delivered := [{ pid_tgid := 5, latency_ns := 150 }] } }, 0)) :=
  ⟨⟨by decide, by decide⟩,
   exit_cleanup_idempotent
     { start_times := [(5, 100), (7, 200)], events := { submitted := [], delivered := [] } }
     5 250 260 100 true true (by decide) (by decide)⟩

/-! ## Independence of contexts -/

/-- C6: for distinct context ids `a` and `b` and every state, the entry
handler for `a` and the exit handler for `a` leave the element stored for `b`
as it was (present or absent, same start time) and add no record carrying id
`b` to the channel (the records with id `b`, handed over or received, are the
same before and after). Hence over any sequence of probe firings on contexts
other than `b` the element for `b` and the records with id `b` are unchanged,
and if `b` was pending with start time `start`, the exit for `b` after that
sequence hands over one record `{b, 64-bit difference of its clock reading and
start}`. -/
theorem no_cross_context_contamination (s : State) (a b : Nat) (hab : a ≠ b)
    (now : Nat) (accept : Bool) (ops : List Op) (hops : b ∉ ops.map Op.ctx)
    (start nowb : Nat) (acceptb : Bool) :
    (bpf_map_lookup_elem (uprobe_handle_request a now s).1.start_times b
        = bpf_map_lookup_elem s.start_times b
      ∧ (uprobe_handle_request a now s).1.events = s.events)
    ∧ (bpf_map_lookup_elem (uretprobe_handle_request a now accept s).1.start_times b
        = bpf_map_lookup_elem s.start_times b
      ∧ carrying b (uretprobe_handle_request a now accept s).1.events.submitted
        = carrying b s.events.submitted
      ∧ carrying b (uretprobe_handle_request a now accept s).1.events.delivered
        = carrying b s.events.delivered)
    ∧ (bpf_map_lookup_elem (run s ops).start_times b = bpf_map_lookup_elem s.start_times b
      ∧ carrying b (run s ops).events.submitted = carrying b s.events.submitted
      ∧ carrying b (run s ops).events.delivered = carrying b s.events.delivered)
    ∧ (bpf_map_lookup_elem s.start_times b = some start →
        (uretprobe_handle_request b nowb acceptb (run s ops)).1.events.submitted
          = (run s ops).events.submitted
            ++ [{ pid_tgid := b, latency_ns := (nowb + 2 ^ 64 - start) % 2 ^ 64 }]) := by
  refine ⟨⟨lookup_uprobe_ne s a b now hab, rfl⟩,
    ⟨lookup_uretprobe_ne s a b now accept hab, carrying_uretprobe_ne s a b now accept hab⟩,
    run_frame ops b hops s, ?_⟩
  intro hstart
  have hl : bpf_map_lookup_elem (run s ops).start_times b = some start :=
    (run_frame ops b hops s).1.trans hstart
  rw [uretprobe_of_lookup_some _ b nowb start acceptb hl]
  cases acceptb <;> simp [bpf_perf_event_output, U64_MOD]

/-- C6 on the example of the specification: with context `5` pending since
`100`, the firings `entry(7)@200`, `exit(7)@205` emit only `{7, 5}` and leave
`5` pending with start `100`; a later exit for `5` at `300` emits `{5, 200}`. -/
theorem no_cross_context_contamination_witness :
    (7 ≠ 5 ∧ 5 ∉ [Op.entry 7 200, Op.exit 7 205 true].map Op.ctx)
    ∧ run State.init [Op.entry 5 100, Op.entry 7 200, Op.exit 7 205 true]
        = { start_times := [(5, 100)],
            events := { submitted := [{ pid_tgid := 7, latency_ns := 5 }],
                        delivered := [{ pid_tgid := 7, latency_ns := 5 }] } }
    ∧ bpf_map_lookup_elem
        (run (run State.init [Op.entry 5 100]) [Op.entry 7 200, Op.exit 7 205 true]).start_times 5
        = bpf_map_lookup_elem (run State.init [Op.entry 5 100]).start_times 5
    ∧ carrying 5
        (run (run State.init [Op.entry 5 100]) [Op.entry 7 200, Op.exit 7 205 true]).events.submitted
        = carrying 5 (run State.init [Op.entry 5 100]).events.submitted
    ∧ (bpf_map_lookup_elem (run State.init [Op.entry 5 100]).start_times 5 = some 100 →
        (uretprobe_handle_request 5 300 true
          (run (run State.init [Op.entry 5 100])
            [Op.entry 7 200, Op.exit 7 205 true])).1.events.submitted
          = (run (run State.init [Op.entry 5 100])
              [Op.entry 7 200, Op.exit 7 205 true]).events.submitted
            ++ [{ pid_tgid := 5, latency_ns := (300 + 2 ^ 64 - 100) % 2 ^ 64 }]) :=
  have h := no_cross_context_contamination (run State.init [Op.entry 5 100]) 7 5 (by decide)
    200 true [Op.entry 7 200, Op.exit 7 205 true] (by decide) 100 300 true
  ⟨⟨by decide, by decide⟩, by decide, h.2.2.1.1, h.2.2.1.2.1, h.2.2.2⟩

/-! ## Table at capacity -/

/-- C7: in every state whose table holds 10240 elements, none of them for
`ctx`, `uprobe_handle_request` for `ctx` returns `0` and leaves the state
unchanged (every stored element is kept, nothing is evicted), and a following
`uretprobe_handle_request` for `ctx`, at any clock reading and channel outcome,
returns `0` and leaves the state unchanged as well: it emits no event. -/
theorem entry_on_full_table_is_dropped (s : State) (ctx now now2 : Nat) (accept : Bool)
    (hfull : s.start_times.length = 10240)
    (habs : bpf_map_lookup_elem s.start_times ctx = none) :
    uprobe_handle_request ctx now s = (s, 0)
    ∧ uretprobe_handle_request ctx now2 accept (uprobe_handle_request ctx now s).1 = (s, 0) := by
  have h1 : uprobe_handle_request ctx now s = (s, 0) := uprobe_of_full s ctx now hfull habs
  refine ⟨h1, ?_⟩
  rw [h1]
  exact uretprobe_of_lookup_none s ctx now2 accept habs

/-- C7 on the table holding the 10240 contexts `0 .. 10239`, for context
`10240`. -/
theorem entry_on_full_table_is_dropped_witness :
    ((fullTable 10240).length = 10240 ∧ bpf_map_lookup_elem (fullTable 10240) 10240 = none)
    ∧ uprobe_handle_request 10240 100
        { start_times := fullTable 10240, events := { submitted := [], delivered := [] } }
      = ({ start_times := fullTable 10240, events := { submitted := [], delivered := [] } }, 0)
    ∧ uretprobe_handle_request 10240 250 true
        (uprobe_handle_request 10240 100
          { start_times := fullTable 10240, events := { submitted := [], delivered := [] } }).1
      = ({ start_times := fullTable 10240, events := { submitted := [], delivered := [] } }, 0) :=
  ⟨⟨length_fullTable 10240, lookup_fullTable_none 10240 10240 (Nat.le_refl _)⟩,
   entry_on_full_table_is_dropped
     { start_times := fullTable 10240, events := { submitted := [], delivered := [] } }
     10240 100 250 true (length_fullTable 10240)
     (lookup_fullTable_none 10240 10240 (Nat.le_refl _))⟩

/-! ## Channel refusing the record -/

/-- C8: in every state whose table (one element per key) holds an element for
`ctx`, when the channel refuses the write, `uretprobe_handle_request` for `ctx`
returns `0`, the reader receives nothing new, and the element for `ctx` is
deleted all the same: the table is the old one with that element unlinked and
holds no element for `ctx`. -/
theorem channel_full_still_consumes_entry (s : State) (ctx now start : Nat)
    (hwf : s.start_times.WF)
    (hlook : bpf_map_lookup_elem s.start_times ctx = some start) :
    (uretprobe_handle_request ctx now false s).1.events.delivered = s.events.delivered
    ∧ (uretprobe_handle_request ctx now false s).1.start_times = s.start_times.erase ctx
    ∧ bpf_map_lookup_elem (uretprobe_handle_request ctx now false s).1.start_times ctx = none
    ∧ (uretprobe_handle_request ctx now false s).2 = 0 := by
  rw [uretprobe_of_lookup_some s ctx now start false hlook]
  refine ⟨by simp [bpf_perf_event_output], by simp [bpf_map_delete_elem, hlook], ?_, rfl⟩
  exact lookup_delete_self s.start_times ctx hwf

/-- C8 at a table holding contexts `5` and `7`, exit for `5` refused by the
channel. -/
theorem channel_full_still_consumes_entry_witness :
    (Table.WF [(5, 100), (7, 200)] ∧ bpf_map_lookup_elem [(5, 100), (7, 200)] 5 = some 100)
    ∧ (uretprobe_handle_request 5 250 false
        { start_times := [(5, 100), (7, 200)],
          events := { submitted := [], delivered := [] } }).1.events.delivered = []
    ∧ (uretprobe_handle_request 5 250 false
        { start_times := [(5, 100), (7, 200)],
          events := { submitted := [], delivered := [] } }).1.start_times = [(7, 200)]
    ∧ bpf_map_lookup_elem (uretprobe_handle_request 5 250 false
        { start_times := [(5, 100), (7, 200)],
          events := { submitted := [], delivered := [] } }).1.start_times 5 = none
    ∧ (uretprobe_handle_request 5 250 false
        { start_times := [(5, 100), (7, 200)],
          events := { submitted := [], delivered := [] } }).2 = 0 :=
  ⟨⟨by decide, by decide⟩,
   channel_full_still_consumes_entry
     { start_times := [(5, 100), (7, 200)], events := { submitted := [], delivered := [] } }
     5 250 100 (by decide) (by decide)⟩

/-! ## Bounded table -/

/-- C9: starting from the empty maps, after every finite sequence of
entry-handler and exit-handler firings (any contexts, clock readings and
channel outcomes) the table `start_times` holds at most 10240 elements and at
most one element per context id. -/
theorem table_bounded_invariant (ops : List Op) (ctx : Nat) :
    (run State.init ops).start_times.length ≤ 10240
    ∧ (run State.init ops).start_times.keys.count ctx ≤ 1 := by
  have hinit : State.init.start_times.Inv :=
    ⟨Nat.zero_le _, by simp [State.init, Table.WF, Table.keys]⟩
  have h := inv_run ops State.init hinit
  exact ⟨h.1, List.nodup_iff_count_le_one.1 h.2 ctx⟩

/-! ## Return values -/

/-- C10: for every state, context id, clock reading and channel outcome,
whatever the map update, the map delete and the channel write return,
`uprobe_handle_request` and `uretprobe_handle_request` both return `0`, and the
entry handler leaves the channel untouched: it emits no event. -/
theorem handlers_always_return_zero (s : State) (ctx now : Nat) (accept : Bool) :
    (uprobe_handle_request ctx now s).2 = 0
    ∧ (uretprobe_handle_request ctx now accept s).2 = 0
    ∧ (uprobe_handle_request ctx now s).1.events = s.events := by
  refine ⟨rfl, ?_, rfl⟩
  cases h : bpf_map_lookup_elem s.start_times ctx with
  | none => rw [uretprobe_of_lookup_none s ctx now accept h]
  | some start => rw [uretprobe_of_lookup_some s ctx now start accept h]

/-! ## Wrapping latency -/

theorem u64_sub_eq (a b : Nat) (hb : b < 2 ^ 64) :
    (a + U64_MOD - b) % U64_MOD = u64_sub a b := by
  unfold U64_MOD u64_sub
  omega

/-- C11: in every state whose table holds the start time `start` for `ctx`,
for every exit clock reading `now` (both unsigned 64-bit) and either channel
outcome, `uretprobe_handle_request` for `ctx` hands to the channel exactly one
record, `{ctx, (now - start) mod 2^64}`, with no condition on the order of the
two readings; that value is `now - start` when `start ≤ now` and
`2^64 - (start - now)` when `start > now`. -/
theorem exit_latency_is_wrapping_difference (s : State) (ctx now start : Nat) (accept : Bool)
    (hlook : bpf_map_lookup_elem s.start_times ctx = some start)
    (hs : start < 2 ^ 64) (hn : now < 2 ^ 64) :
    (uretprobe_handle_request ctx now accept s).1.events.submitted
      = s.events.submitted ++ [{ pid_tgid := ctx, latency_ns := u64_sub now start }]
    ∧ u64_sub now start = (((now : Int) - (start : Int)) % (2 : Int) ^ 64).toNat
    ∧ (start ≤ now → u64_sub now start = now - start)
    ∧ (now < start → u64_sub now start = 2 ^ 64 - (start - now)) := by
  refine ⟨?_, rfl, ?_, ?_⟩
  · rw [uretprobe_of_lookup_some s ctx now start accept hlook, u64_sub_eq now start hs]
    cases accept <;> simp [bpf_perf_event_output]
  · intro h; unfold u64_sub; omega
  · intro h; unfold u64_sub; omega

/-- C11 at start time `250` and exit reading `100`: the record handed over is
`{5, 2^64 - 150}`. -/
theorem exit_latency_is_wrapping_difference_witness :
    (bpf_map_lookup_elem [(5, 250)] 5 = some 250 ∧ 250 < 2 ^ 64 ∧ 100 < 2 ^ 64)
    ∧ (uretprobe_handle_request 5 100 false
        { start_times := [(5, 250)], events := { submitted := [], delivered := [] } }).1.events.submitted
      = [{ pid_tgid := 5, latency_ns := u64_sub 100 250 }]
    ∧ u64_sub 100 250 = (((100 : Int) - (250 : Int)) % (2 : Int) ^ 64).toNat
    ∧ (250 ≤ 100 → u64_sub 100 250 = 100 - 250)
    ∧ (100 < 250 → u64_sub 100 250 = 2 ^ 64 - (250 - 100)) :=
  ⟨⟨by decide, by decide, by decide⟩,
   exit_latency_is_wrapping_difference
     { start_times := [(5, 250)], events := { submitted := [], delivered := [] } }
     5 100 250 false (by decide) (by decide) (by decide)⟩

/-! ## Events against entries -/

theorem keys_count_erase_ne (m : Table) (a c : Nat) (hne : a ≠ c) :
    (m.erase a).keys.count c = m.keys.count c := by
  induction m with
  | nil => rfl
  | cons e rest ih =>
    obtain ⟨k, v⟩ := e
    by_cases hk : k = a
    · have hkc : k ≠ c := fun h => hne (hk ▸ h)
      simp [Table.erase, Table.keys, hk, List.count_cons, hne]
    · simp only [Table.erase, hk, if_false]
      simp only [Table.keys, List.map_cons, List.count_cons] at ih ⊢
      rw [ih]

theorem keys_count_erase_self (m : Table) (c : Nat)
    (h : (bpf_map_lookup_elem m c).isSome) :
    (m.erase c).keys.count c + 1 = m.keys.count c := by
  induction m with
  | nil => simp [bpf_map_lookup_elem] at h
  | cons e rest ih =>
    obtain ⟨k, v⟩ := e
    by_cases hk : k = c
    · simp [Table.erase, Table.keys, hk, List.count_cons]
    · simp only [bpf_map_lookup_elem, hk, if_false] at h
      have ih2 := ih h
      simp only [Table.erase, hk, if_false]
      simp only [Table.keys, List.map_cons, List.count_cons] at ih2 ⊢
      simp only [beq_iff_eq, hk, if_false] at ih2 ⊢
      omega

/-- Records with id `c` handed to the channel plus elements stored for `c`. -/
theorem step_count (s : State) (op : Op) (c : Nat) :
    (carrying c (step s op).events.submitted).length + (step s op).start_times.keys.count c
      ≤ (carrying c s.events.submitted).length + s.start_times.keys.count c
        + (if Op.isEntryFor c op then 1 else 0) := by
  cases op with
  | entry a t =>
    show (carrying c s.events.submitted).length
        + (bpf_map_update_elem s.start_times a t).1.keys.count c ≤ _
    unfold bpf_map_update_elem
    by_cases hs : (bpf_map_lookup_elem s.start_times a).isSome
    · simp only [hs, if_true, keys_replace]
      omega
    · by_cases hlen : s.start_times.length < MAX_ENTRIES
      · by_cases hac : a = c
        · subst hac
          simp [hs, hlen, Table.keys, List.count_cons, Op.isEntryFor]
          omega
        · simp [hs, hlen, Table.keys, List.count_cons, Op.isEntryFor, hac]
      · simp only [hs, hlen, if_false, Bool.false_eq_true]
        omega
  | exit a t acc =>
    show (carrying c (uretprobe_handle_request a t acc s).1.events.submitted).length
        + (uretprobe_handle_request a t acc s).1.start_times.keys.count c ≤ _
    cases hl : bpf_map_lookup_elem s.start_times a with
    | none =>
      rw [uretprobe_of_lookup_none s a t acc hl]
      simp [Op.isEntryFor]
    | some start =>
      rw [uretprobe_of_lookup_some s a t start acc hl]
      have hs : (bpf_map_lookup_elem s.start_times a).isSome := by simp [hl]
      by_cases hac : a = c
      · subst hac
        have hc := keys_count_erase_self s.start_times a hs
        cases acc <;>
          simp [bpf_perf_event_output, bpf_map_delete_elem, hl, carrying,
            List.filter_append, Op.isEntryFor] <;> omega
      · have hc := keys_count_erase_ne s.start_times a c hac
        cases acc <;>
          simp [bpf_perf_event_output, bpf_map_delete_elem, hl, carrying,
            List.filter_append, Op.isEntryFor, hac, hc]

theorem run_count (ops : List Op) (c : Nat) (s : State) :
    (carrying c (run s ops).events.submitted).length + (run s ops).start_times.keys.count c
      ≤ (carrying c s.events.submitted).length + s.start_times.keys.count c
        + entriesFor c ops := by
  induction ops generalizing s with
  | nil => simp [run, entriesFor]
  | cons op rest ih =>
    have h1 := step_count s op c
    have h2 := ih (step s op)
    have hrun : run s (op :: rest) = run (step s op) rest := rfl
    have hent : entriesFor c (op :: rest)
        = (if Op.isEntryFor c op then 1 else 0) + entriesFor c rest := by
      unfold entriesFor
      by_cases ho : Op.isEntryFor c op = true
      · simp [List.filter_cons, ho]; omega
      · simp [List.filter_cons, ho]
    rw [hrun, hent]
    omega

/-- The reader receives no more records with id `c` than were handed over. -/
theorem step_delivered_le (s : State) (op : Op) (c : Nat)
    (h : (carrying c s.events.delivered).length ≤ (carrying c s.events.submitted).length) :
    (carrying c (step s op).events.delivered).length
      ≤ (carrying c (step s op).events.submitted).length := by
  cases op with
  | entry a t => exact h
  | exit a t acc =>
    show (carrying c (uretprobe_handle_request a t acc s).1.events.delivered).length
        ≤ (carrying c (uretprobe_handle_request a t acc s).1.events.submitted).length
    cases hl : bpf_map_lookup_elem s.start_times a with
    | none => rw [uretprobe_of_lookup_none s a t acc hl]; exact h
    | some start =>
      rw [uretprobe_of_lookup_some s a t start acc hl]
      unfold carrying at h ⊢
      by_cases hac : a = c
      · cases acc <;> simp [bpf_perf_event_output, List.filter_append, hac] <;> omega
      · cases acc <;> simp [bpf_perf_event_output, List.filter_append, hac] <;> omega

theorem run_delivered_le (ops : List Op) (c : Nat) (s : State)
    (h : (carrying c s.events.delivered).length ≤ (carrying c s.events.submitted).length) :
    (carrying c (run s ops).events.delivered).length
      ≤ (carrying c (run s ops).events.submitted).length := by
  induction ops generalizing s with
  | nil => exact h
  | cons op rest ih => exact ih (step s op) (step_delivered_le s op c h)

/-- The return probe hands at most one record to the channel, and its id is
that of the context. -/
theorem uretprobe_submits_at_most_one (s : State) (c now : Nat) (accept : Bool) :
    (uretprobe_handle_request c now accept s).1.events.submitted = s.events.submitted
    ∨ ∃ ev : latency_event, ev.pid_tgid = c
        ∧ (uretprobe_handle_request c now accept s).1.events.submitted
          = s.events.submitted ++ [ev] := by
  cases hl : bpf_map_lookup_elem s.start_times c with
  | none => left; rw [uretprobe_of_lookup_none s c now accept hl]
  | some start =>
    right
    rw [uretprobe_of_lookup_some s c now start accept hl]
    exact ⟨{ pid_tgid := c, latency_ns := (now + U64_MOD - start) % U64_MOD }, rfl, by
      cases accept <;> simp [bpf_perf_event_output]⟩

/-- C12: over every finite sequence of entry-handler and exit-handler firings
starting from the empty maps, an exit firing (on any context `c`, at any clock
reading and channel outcome) hands at most one record to the channel, and it
carries id `c`; and for every context id `ctx` and every prefix of the
sequence, the number of records with id `ctx` handed to the channel during the
prefix is at most the number of entry-handler firings for `ctx` in that
prefix, and the reader receives no more of them than were handed over. -/
theorem events_never_outnumber_entries (ops : List Op) (ctx k c now : Nat) (accept : Bool) :
    ((uretprobe_handle_request c now accept (run State.init ops)).1.events.submitted
        = (run State.init ops).events.submitted
      ∨ ∃ ev : latency_event, ev.pid_tgid = c
          ∧ (uretprobe_handle_request c now accept (run State.init ops)).1.events.submitted
            = (run State.init ops).events.submitted ++ [ev])
    ∧ (carrying ctx (run State.init (ops.take k)).events.submitted).length
        ≤ entriesFor ctx (ops.take k)
    ∧ (carrying ctx (run State.init (ops.take k)).events.delivered).length
        ≤ (carrying ctx (run State.init (ops.take k)).events.submitted).length := by
  refine ⟨uretprobe_submits_at_most_one _ c now accept, ?_, ?_⟩
  · have h := run_count (ops.take k) ctx State.init
    have h0 : (carrying ctx State.init.events.submitted).length
        + State.init.start_times.keys.count ctx = 0 := by
      simp [State.init, carrying, Table.keys]
    omega
  · exact run_delivered_le (ops.take k) ctx State.init (by simp [State.init, carrying])

/-! ## Overwrite at capacity -/

theorem lookup_fullTable_ne_none (n key : Nat) (h : key < n) :
    bpf_map_lookup_elem (fullTable n) key ≠ none := by
  rw [Ne, lookup_eq_none_iff, keys_fullTable]
  simp [h]

/-- Entry probe on a context already stored: its value is overwritten in
place, whatever the size of the map. -/
theorem uprobe_of_present (s : State) (ctx now : Nat)
    (hpres : bpf_map_lookup_elem s.start_times ctx ≠ none) :
    uprobe_handle_request ctx now s
      = ({ start_times := s.start_times.replace ctx now, events := s.events }, 0) := by
  have hs : (bpf_map_lookup_elem s.start_times ctx).isSome = true := by
    cases h : bpf_map_lookup_elem s.start_times ctx with
    | none => exact absurd h hpres
    | some v => rfl
  simp [uprobe_handle_request, bpf_map_update_elem, hs]

/-- C13: in every state whose table holds 10240 elements, one of them for
`ctx`, `uprobe_handle_request` for `ctx` at `t` returns `0` and overwrites the
stored start time of `ctx` with `t`: the table is the old one with that value
replaced in place, it still holds 10240 elements under the same keys, and the
element of every other context `b` is unchanged. A following
`uretprobe_handle_request` for `ctx` at a 64-bit reading `t2 ≥ t` then hands
the record `{ctx, t2 - t}` to the channel, and the reader receives it when the
channel accepts. -/
theorem overwrite_at_capacity (s : State) (ctx t t2 b : Nat) (accept : Bool)
    (hfull : s.start_times.length = 10240)
    (hpres : bpf_map_lookup_elem s.start_times ctx ≠ none)
    (hle : t ≤ t2) (h64 : t2 < 2 ^ 64) :
    uprobe_handle_request ctx t s
      = ({ start_times := s.start_times.replace ctx t, events := s.events }, 0)
    ∧ bpf_map_lookup_elem (uprobe_handle_request ctx t s).1.start_times ctx = some t
    ∧ (uprobe_handle_request ctx t s).1.start_times.length = 10240
    ∧ (uprobe_handle_request ctx t s).1.start_times.keys = s.start_times.keys
    ∧ (b ≠ ctx → bpf_map_lookup_elem (uprobe_handle_request ctx t s).1.start_times b
        = bpf_map_lookup_elem s.start_times b)
    ∧ (uretprobe_handle_request ctx t2 accept (uprobe_handle_request ctx t s).1).1.events.submitted
        = s.events.submitted ++ [{ pid_tgid := ctx, latency_ns := t2 - t }]
    ∧ (uretprobe_handle_request ctx t2 accept (uprobe_handle_request ctx t s).1).1.events.delivered
        = (if accept then s.events.delivered ++ [{ pid_tgid := ctx, latency_ns := t2 - t }]
           else s.events.delivered) := by
  have hu := uprobe_of_present s ctx t hpres
  have hl : bpf_map_lookup_elem (uprobe_handle_request ctx t s).1.start_times ctx = some t :=
    lookup_uprobe_self s ctx t (Or.inr hpres)
  have harith : (t2 + U64_MOD - t) % U64_MOD = t2 - t := by
    unfold U64_MOD; omega
  refine ⟨hu, hl, ?_, ?_, ?_, ?_, ?_⟩
  · rw [hu]; simpa [length_replace] using hfull
  · rw [hu]; exact keys_replace s.start_times ctx t
  · intro hb
    exact lookup_uprobe_ne s ctx b t (fun h => hb h.symm)
  · rw [uretprobe_of_lookup_some _ ctx t2 t accept hl, harith]
    cases accept <;> simp [bpf_perf_event_output, events_uprobe]
  · rw [uretprobe_of_lookup_some _ ctx t2 t accept hl, harith]
    cases accept <;> simp [bpf_perf_event_output, events_uprobe]

/-- C13 on the table holding the 10240 contexts `0 .. 10239`, each with start
time `0`: the entry for context `5` at `100` overwrites its start time, context
`7` keeps its own, and the exit for `5` at `250` emits `{5, 150}`. -/
theorem overwrite_at_capacity_witness :
    ((fullTable 10240).length = 10240 ∧ bpf_map_lookup_elem (fullTable 10240) 5 ≠ none
      ∧ 100 ≤ 250 ∧ 250 < 2 ^ 64)
    ∧ bpf_map_lookup_elem (uprobe_handle_request 5 100
        { start_times := fullTable 10240,
          events := { submitted := [], delivered := [] } }).1.start_times 5 = some 100
    ∧ (uprobe_handle_request 5 100
        { start_times := fullTable 10240,
          events := { submitted := [], delivered := [] } }).1.start_times.length = 10240
    ∧ (7 ≠ 5 → bpf_map_lookup_elem (uprobe_handle_request 5 100
        { start_times := fullTable 10240,
          events := { submitted := [], delivered := [] } }).1.start_times 7
        = bpf_map_lookup_elem (fullTable 10240) 7)
    ∧ (uretprobe_handle_request 5 250 true (uprobe_handle_request 5 100
        { start_times := fullTable 10240,
          events := { submitted := [], delivered := [] } }).1).1.events.submitted
        = [{ pid_tgid := 5, latency_ns := 150 }] :=
  have h := overwrite_at_capacity
    { start_times := fullTable 10240, events := { submitted := [], delivered := [] } }
    5 100 250 7 true (length_fullTable 10240)
    (lookup_fullTable_ne_none 10240 5 (by decide)) (by decide) (by decide)
  ⟨⟨length_fullTable 10240, lookup_fullTable_ne_none 10240 5 (by decide), by decide, by decide⟩,
   h.2.1, h.2.2.1, h.2.2.2.2.1, h.2.2.2.2.2.1⟩

end LatencyMonitor
